import Mathlib

/-!
Shallow embedding of the network-facing core of the `feather` world server
(`src/server/src/view.rs`, `src/server/src/network.rs`,
`src/server/src/entity/mod.rs`) together with proofs of the spec's claims
about it.

Entities (`legion::entity::Entity`) are opaque handles; we model them as
naturals.  Hash sets of chunk positions are modelled as `Finset`s (the code
never relies on iteration order of a `HashSet`; where the code does iterate,
we use `Finset.toList`, one admissible enumeration).  World positions use
rational coordinates in place of `f64`; only comparisons and floor division
by the chunk size are ever performed on them here.  Panicking operations
(`unwrap`, `expect`, `assert!`) are modelled with `Except Panic`.
-/

namespace Feather

/-- An opaque entity handle (`legion::entity::Entity`). -/
abbrev Entity := Nat

/-- `feather_core::ChunkPosition`: integer (x, z) chunk coordinates. -/
structure ChunkPosition where
  x : Int
  z : Int
deriving DecidableEq, Repr

/-- Componentwise addition of chunk positions, used by
`chunks_within_view_distance` as `position + ChunkPosition::new(x, z)`. -/
def ChunkPosition.add (a b : ChunkPosition) : ChunkPosition :=
  ⟨a.x + b.x, a.z + b.z⟩

instance : Add ChunkPosition := ⟨ChunkPosition.add⟩

/-- Modelled from the spec: `ChunkPosition::manhattan_distance` lives in
`feather_core`, which is not part of the excerpt; the spec calls it the
Manhattan distance from the session's new chunk, i.e. |dx| + |dz|. -/
def ChunkPosition.manhattan_distance (a b : ChunkPosition) : Int :=
  |a.x - b.x| + |a.z - b.z|

/-- Modelled from the spec: `feather_core::Position` is a world position with
floating-point coordinates; the core only ever asks for its chunk coordinate
(`chunk_pos`, floor division by the chunk size 16, cf. the spec's example
"from x=15.9 to x=16.1 at chunk size 16").  We use rationals for the
coordinates; the y coordinate and look angles are irrelevant to chunk
membership and omitted. -/
structure Position where
  x : Rat
  z : Rat
deriving DecidableEq, Repr

/-- Modelled from the spec: chunk coordinate of a position, floor of each
horizontal coordinate divided by the chunk size 16. -/
def Position.chunk_pos (p : Position) : ChunkPosition :=
  ⟨⌊p.x / 16⌋, ⌊p.z / 16⌋⟩

/-- The part of `Config` the view pipeline reads: `config.server.view_distance`
(an unsigned integer, cast to `i32` in `chunks_within_view_distance`). -/
structure Config where
  view_distance : Nat

/-- `view.rs` `chunks_within_view_distance`: all chunks within the view
distance of a given chunk.  The double loop
`for x in -view_distance..=view_distance { for z in ... { set.insert(position + ChunkPosition::new(x, z)) } }`
inserts into a `HashSet`; we build the same set as a `Finset` image over the
square of offset pairs. -/
def chunks_within_view_distance (config : Config) (position : ChunkPosition) :
    Finset ChunkPosition :=
  let view_distance : Int := config.view_distance
  (Finset.Icc (-view_distance) view_distance ×ˢ
      Finset.Icc (-view_distance) view_distance).image
    (fun d => position + ChunkPosition.mk d.1 d.2)

/-- Lexicographic order on chunk positions, used only to fix one admissible
enumeration of a `HashSet<ChunkPosition>` (whose iteration order the code
never relies on). -/
def ChunkPosition.lex_le (a b : ChunkPosition) : Prop :=
  a.x < b.x ∨ (a.x = b.x ∧ a.z ≤ b.z)

instance : DecidableRel ChunkPosition.lex_le := fun a b =>
  inferInstanceAs (Decidable (a.x < b.x ∨ (a.x = b.x ∧ a.z ≤ b.z)))

instance : IsTrans ChunkPosition ChunkPosition.lex_le where
  trans a b c hab hbc := by
    unfold ChunkPosition.lex_le at hab hbc ⊢
    omega

instance : IsAntisymm ChunkPosition ChunkPosition.lex_le where
  antisymm a b hab hba := by
    obtain ⟨ax, az⟩ := a
    obtain ⟨bx, bz⟩ := b
    simp only [ChunkPosition.lex_le] at hab hba
    simp only [ChunkPosition.mk.injEq]
    omega

instance : IsTotal ChunkPosition ChunkPosition.lex_le where
  total a b := by
    unfold ChunkPosition.lex_le
    omega

/-- One admissible enumeration of a hash set of chunk positions: its
elements sorted lexicographically. -/
def enumerate (s : Finset ChunkPosition) : List ChunkPosition :=
  s.sort ChunkPosition.lex_le

/-! ## View-update events (`view.rs`) -/

/-- `view.rs` `ViewUpdateEvent`. -/
structure ViewUpdateEvent where
  player : Entity
  new_chunk : ChunkPosition
  old_chunk : Option ChunkPosition
  visible_old : Finset ChunkPosition
  visible_new : Finset ChunkPosition
deriving DecidableEq

/-- `entity/mod.rs` `EntityMoveEvent`. -/
structure EntityMoveEvent where
  entity : Entity
deriving DecidableEq

/-- The components of the world read by the `view_update` handler: whether an
entity has the `Player` marker component, and its `Position` /
`PreviousPosition` components.  The handler `unwrap`s the latter two for
entities that pass the player check, so we represent them as total functions
(a player always owns both components). -/
structure MoveWorld where
  is_player : Entity → Bool
  position : Entity → Position
  previous_position : Entity → Position

/-- `view.rs` `view_update`, restricted to a single `EntityMoveEvent` (the
handler runs its body independently for each event of its batch, in parallel
with a mutex around the trigger handle).  Returns the `ViewUpdateEvent`s
this event's iteration triggers. -/
def view_update (state : Config) (world : MoveWorld) (event : EntityMoveEvent) :
    List ViewUpdateEvent :=
  -- Only process view for players.
  if world.is_player event.entity = false then []
  else
    let pos := world.position event.entity
    let prev_pos := world.previous_position event.entity
    -- Find the old chunks and new chunks.
    let visible_new := chunks_within_view_distance state pos.chunk_pos
    let visible_old := chunks_within_view_distance state prev_pos.chunk_pos
    if pos.chunk_pos ≠ prev_pos.chunk_pos then
      [{ player := event.entity
         new_chunk := pos.chunk_pos
         old_chunk := some prev_pos.chunk_pos
         visible_old := visible_old
         visible_new := visible_new }]
    else []

/-- `player.rs` `PlayerJoinEvent` (only the field the view pipeline reads). -/
structure PlayerJoinEvent where
  player : Entity
deriving DecidableEq

/-- `view.rs` `view_update_on_join`: triggers a `ViewUpdateEvent` for a
player join; `position` is the joining player's `Position` component
(`world.get_component::<Position>(event.player).unwrap()`).  Returns the
events triggered. -/
def view_update_on_join (state : Config) (position : Position)
    (event : PlayerJoinEvent) : List ViewUpdateEvent :=
  let visible_new := chunks_within_view_distance state position.chunk_pos
  [{ player := event.player
     new_chunk := position.chunk_pos
     old_chunk := none
     visible_new := visible_new
     -- No chunks were previously visible, since the player just joined
     visible_old := ∅ }]

/-! ## Chunk delivery (`view.rs` `view_handle_chunks`, `send_chunk_to_player`,
`chunk_send`) -/

/-- The sort key computed by the closure that `view_handle_chunks` passes to
`sort_unstable_by_key`:

    to_send.sort_unstable_by_key(|chunk| {
        chunk.manhattan_distance(event.new_chunk);
    });

The closure body ends in a semicolon, so the computed distance is discarded
and the closure returns the unit value; every element has the same key. -/
def view_handle_chunks_sort_key (chunk new_chunk : ChunkPosition) : Unit :=
  let _ := chunk.manhattan_distance new_chunk
  ()

/-- Insertion step of a stable sort by key: place `a` before the first
element whose key is not below `a`'s key. -/
def ordered_insert_by_key {α κ : Type} (le : κ → κ → Bool) (key : α → κ)
    (a : α) : List α → List α
  | [] => [a]
  | b :: l =>
    if le (key a) (key b) then a :: b :: l else b :: ordered_insert_by_key le key a l

/-- `slice::sort_unstable_by_key`, modelled as an insertion sort over the
key order.  With the constant unit key produced by the closure above every
comparison succeeds, so (like Rust's pattern-defeating quicksort, which
finds the slice already sorted) the model leaves the input order unchanged. -/
def sort_unstable_by_key {α κ : Type} (l : List α) (key : α → κ)
    (le : κ → κ → Bool) : List α :=
  l.foldr (ordered_insert_by_key le key) []

/-- The only order on the unit type: always `true`. -/
def unit_le (_a _b : Unit) : Bool := true

/-- The `to_send` list as `view_handle_chunks` actually orders it before
sending, for a given enumeration `to_send` of `visible_new − visible_old`:
`sort_unstable_by_key` with the unit-valued closure key. -/
def view_handle_chunks_order (to_send : List ChunkPosition)
    (new_chunk : ChunkPosition) : List ChunkPosition :=
  sort_unstable_by_key to_send
    (fun chunk => view_handle_chunks_sort_key chunk new_chunk) unit_le

/-- `view.rs` `ChunkSendEvent`. -/
structure ChunkSendEvent where
  chunk : ChunkPosition
  player : Entity
deriving DecidableEq

/-- A packet sent to a client by the view pipeline.  Chunks are identified
by their positions (`create_chunk_data` clones the chunk keyed by
`chunk.position()`); a spawn packet is tagged with the entity whose
`SpawnPacketCreator` produced it. -/
inductive SentPacket
  | chunkData (chunk : ChunkPosition)
  | unloadChunk (chunk_x chunk_z : Int)
  | spawn (entity : Entity)
  | destroyEntities (entity_ids : List Int)
deriving DecidableEq

/-- Rust panics reachable in the modelled code. -/
inductive Panic
  | unwrapNone
  | playerAlreadyDeleted
  | chunkNotLoadedButLoadEventTriggered
deriving DecidableEq

/-- The shared state touched by chunk delivery: the `ChunksToSend` resource
(`CHashMap<ChunkPosition, SmallVec<[Entity; 2]>>`, modelled as a partial
map), the load requests issued to the chunk worker
(`chunk_logic::load_chunk`, modelled from the spec as a fire-and-forget
request log), the chunk holds (`chunk_logic::hold_chunk`, modelled from the
spec as an acquisition log), the packets handed to each player's `Network`,
and the `ChunkSendEvent`s triggered. -/
structure ChunkSendState where
  chunks_to_send : ChunkPosition → Option (List Entity)
  load_requests : List ChunkPosition
  holds : List (Entity × ChunkPosition)
  packets : List (Entity × SentPacket)
  send_events : List ChunkSendEvent

/-- `view.rs` `send_chunk_to_player`.  `resident` is
`state.chunk_at`' restricted to residency (`Some` ⇔ the chunk's data is
already resident).  Mirrors the source: acquire the hold first; if resident,
send immediately and trigger `ChunkSendEvent`; otherwise append the player
to the chunk's pending vector (inserting an empty vector if absent) and
issue a load request only if the key was absent before (`!contains`). -/
def send_chunk_to_player (resident : ChunkPosition → Bool) (player : Entity)
    (chunk : ChunkPosition) (st : ChunkSendState) : ChunkSendState :=
  -- Ensure that the chunk isn't unloaded while the player has it loaded.
  let st := { st with holds := st.holds ++ [(player, chunk)] }
  if resident chunk then
    { st with
      packets := st.packets ++ [(player, SentPacket.chunkData chunk)]
      send_events := st.send_events ++ [⟨chunk, player⟩] }
  else
    let contains := (st.chunks_to_send chunk).isSome
    let vec := (st.chunks_to_send chunk).getD []
    let st := { st with
      chunks_to_send := fun c =>
        if c = chunk then some (vec ++ [player]) else st.chunks_to_send c }
    if !contains then { st with load_requests := st.load_requests ++ [chunk] }
    else st

/-- `view.rs` `unload_chunk_for_player`: release the hold
(`chunk_logic::release_chunk`, modelled from the spec as removing one
acquisition log entry) and send an `UnloadChunk` packet. -/
def unload_chunk_for_player (player : Entity) (chunk : ChunkPosition)
    (st : ChunkSendState) : ChunkSendState :=
  { st with
    holds := (st.holds.eraseP fun h => decide (h = (player, chunk)))
    packets := st.packets ++ [(player, SentPacket.unloadChunk chunk.x chunk.z)] }

/-- `view.rs` `chunk_send`, the handler for one `ChunkLoadEvent` at `pos`:
if sessions are pending for `pos`, the chunk must now be resident
(`expect("chunk not loaded, but load event was triggered")`), and each
pending session is sent the chunk data and a `ChunkSendEvent`; finally the
pending entry is removed. -/
def chunk_send (resident : ChunkPosition → Bool) (pos : ChunkPosition)
    (st : ChunkSendState) : Except Panic ChunkSendState :=
  match st.chunks_to_send pos with
  | some players =>
    if resident pos then
      let st := players.foldl (fun st player =>
        { st with
          packets := st.packets ++ [(player, SentPacket.chunkData pos)]
          send_events := st.send_events ++ [⟨pos, player⟩] }) st
      Except.ok { st with
        chunks_to_send := fun c => if c = pos then none else st.chunks_to_send c }
    else Except.error Panic.chunkNotLoadedButLoadEventTriggered
  | none =>
    Except.ok { st with
      chunks_to_send := fun c => if c = pos then none else st.chunks_to_send c }

/-- The spec's pending-window scenario: several sessions, one after the
other (each from its own view-update event), reach `send_chunk_to_player`
for the same chunk `c` within one pending window. -/
def register_pending (resident : ChunkPosition → Bool) (c : ChunkPosition)
    (ps : List Entity) (st : ChunkSendState) : ChunkSendState :=
  ps.foldl (fun s p => send_chunk_to_player resident p c s) st

/-! ## Entity visibility (`view.rs` `view_handle_entities`) -/

/-- The world as read by `view_handle_entities`: which entities are indexed
in each chunk (`state.chunk_entities.entities_in_chunk`), each entity's
numeric `EntityId` (`unwrap`ed, entities in the index always carry one), and
whether the entity exposes a `SpawnPacketCreator` component (the
`accessor.find` / `get_component` pair). -/
structure EntityWorld where
  entities_in_chunk : ChunkPosition → List Entity
  entity_id : Entity → Int
  has_spawn_packet_creator : Entity → Bool

/-- The side effects of `view_handle_entities` for one event: packets sent
to `event.player`'s network, the entities registered as sent to the player
(`state.register_entity_send`), and those registered as unloaded
(`state.register_entity_unload`). -/
structure EntityViewEffects where
  packets : List SentPacket
  registered_sends : List Entity
  registered_unloads : List Entity
deriving DecidableEq

/-- The entities of the given chunks for which `view_handle_entities` sends
a spawn packet: every entity located there, skipping the session's own
entity ("Don't send client to themself") and those without a
`SpawnPacketCreator`. -/
def spawn_targets (w : EntityWorld) (player : Entity)
    (chunks : List ChunkPosition) : List Entity :=
  chunks.flatMap fun chunk =>
    (w.entities_in_chunk chunk).filter fun entity =>
      decide (entity ≠ player) && w.has_spawn_packet_creator entity

/-- The ids collected into `to_delete` by `view_handle_entities` for an
event: for each chunk of `to_unload = visible_old − visible_new`, the
numeric id of every entity located there. -/
def view_to_delete (w : EntityWorld) (event : ViewUpdateEvent) : List Int :=
  (enumerate (event.visible_old \ event.visible_new)).flatMap fun chunk =>
    (w.entities_in_chunk chunk).map w.entity_id

/-- `view.rs` `view_handle_entities`, restricted to a single
`ViewUpdateEvent` (the handler runs its body independently per event).  For
each newly visible chunk, spawn packets are sent per eligible entity; the
ids of all entities in the newly invisible chunks are collected into
`to_delete` and, if nonempty, one batched `DestroyEntities` packet is
sent. -/
def view_handle_entities (w : EntityWorld) (event : ViewUpdateEvent) :
    EntityViewEffects :=
  let to_send := enumerate (event.visible_new \ event.visible_old)
  let to_unload := enumerate (event.visible_old \ event.visible_new)
  let targets := spawn_targets w event.player to_send
  let to_delete := view_to_delete w event
  { packets := targets.map SentPacket.spawn ++
      (if to_delete.isEmpty then [] else [SentPacket.destroyEntities to_delete])
    registered_sends := targets
    registered_unloads := to_unload.flatMap fun chunk => w.entities_in_chunk chunk }

/-- Recognizer for batched destroy packets. -/
def SentPacket.is_destroy_entities : SentPacket → Bool
  | SentPacket.destroyEntities _ => true
  | _ => false

/-! ## The packet queue (`network.rs` `PacketQueue`) -/

/-- An inbound protocol packet: its `PacketType` ordinal (`ty().ordinal()`)
and an opaque payload distinguishing packets of the same type. -/
structure Packet where
  ty : Nat
  payload : Nat
deriving DecidableEq, Repr

/-- `network.rs` `PacketQueue`: one bucket of `(origin, packet)` pairs per
packet-type ordinal.  The `Vec<Mutex<QueuedPackets>>` of
`PacketType::count() + 1` buckets is modelled as a total map from ordinals
to buckets (every ordinal produced by `ty().ordinal()` is in range by
construction of the enumeration). -/
structure PacketQueue where
  queue : Nat → List (Entity × Packet)

/-- `PacketQueue::new`: every bucket empty. -/
def PacketQueue.new : PacketQueue := ⟨fun _ => []⟩

/-- `PacketQueue::push`: append `(entity, packet)` to the bucket indexed by
the packet's type ordinal. -/
def PacketQueue.push (q : PacketQueue) (packet : Packet) (entity : Entity) :
    PacketQueue :=
  ⟨fun ordinal =>
    if ordinal = packet.ty then q.queue ordinal ++ [(entity, packet)]
    else q.queue ordinal⟩

/-- `PacketQueue::received::<P>`: swap out the whole bucket of `P`'s ordinal
under its lock and return its entries (the drained iterator), leaving the
bucket empty.  Returns the drained sequence and the queue afterwards. -/
def PacketQueue.received (q : PacketQueue) (ty : Nat) :
    List (Entity × Packet) × PacketQueue :=
  (q.queue ty, ⟨fun ordinal => if ordinal = ty then [] else q.queue ordinal⟩)

/-- A sequence of `push` calls (in order) applied to a queue. -/
def PacketQueue.push_all (q : PacketQueue) (pushes : List (Entity × Packet)) :
    PacketQueue :=
  pushes.foldl (fun q ep => q.push ep.2 ep.1) q

/-! ## The session channel (`network.rs` `Network`) -/

/-- `io.rs` `ServerToWorkerMessage` (outside the excerpt); only the variant
sent here is modelled. -/
inductive ServerToWorkerMessage
  | sendPacket (packet : Packet)
deriving DecidableEq

/-- Modelled from the spec: the `futures` unbounded channel underlying
`Network.sender`.  `closed` is true once the connection worker has shut
down. -/
structure Channel where
  closed : Bool
  messages : List ServerToWorkerMessage
deriving DecidableEq

/-- Modelled from the spec: `UnboundedSender::unbounded_send` appends the
message if the channel is open and returns an error (leaving the channel
untouched) if it is already closed. -/
def Channel.unbounded_send (ch : Channel) (msg : ServerToWorkerMessage) :
    Channel × Bool :=
  if ch.closed then (ch, false)
  else ({ ch with messages := ch.messages ++ [msg] }, true)

/-- `network.rs` `Network::send_boxed`: `let _ = self.sender.unbounded_send(...)`
— the error result is discarded, so the function is total and returns
normally whether or not the channel is closed. -/
def Network.send_boxed (ch : Channel) (packet : Packet) : Channel :=
  (ch.unbounded_send (ServerToWorkerMessage.sendPacket packet)).1

/-- `network.rs` `Network::send`: boxes the packet and delegates to
`send_boxed`. -/
def Network.send (ch : Channel) (packet : Packet) : Channel :=
  Network.send_boxed ch packet

/-! ## The network system (`network.rs` `network_`), disconnect branch -/

/-- The components the disconnect branch snapshots for a live player. -/
structure PlayerData where
  position : Position
  id : Int
  uuid : Nat
deriving DecidableEq

/-- `entity/mod.rs` `EntityDeleteEvent`. -/
structure EntityDeleteEvent where
  entity : Entity
  position : Option Position
  id : Int
  uuid : Nat
deriving DecidableEq

/-- The world as read by the disconnect branch: the components of each
still-live entity (`None` once deleted). -/
structure NetWorld where
  components : Entity → Option PlayerData

/-- `legion` `world.delete(entity)`: returns whether the entity was live,
removing it. -/
def NetWorld.delete (w : NetWorld) (entity : Entity) : Bool × NetWorld :=
  ((w.components entity).isSome,
   ⟨fun e => if e = entity then none else w.components e⟩)

/-- `network.rs` `network_`, the `NotifyDisconnect` arm: `unwrap` the
entity's `Position`, `EntityId` and `Uuid` components (a panic if the entity
was already deleted), trigger an `EntityDeleteEvent` carrying that snapshot,
then `assert!(world.delete(entity), "player already deleted")`. -/
def handle_notify_disconnect (w : NetWorld) (entity : Entity) :
    Except Panic (NetWorld × EntityDeleteEvent) :=
  match w.components entity with
  | none => Except.error Panic.unwrapNone
  | some data =>
    let ev : EntityDeleteEvent :=
      ⟨entity, some data.position, data.id, data.uuid⟩
    let r := w.delete entity
    if r.1 then Except.ok (r.2, ev)
    else Except.error Panic.playerAlreadyDeleted

/-! ## The base entity builder (`entity/mod.rs` `base`) -/

/-- The components `base` installs.  `Velocity` wraps a `glm::DVec3`;
rationals stand in for `f64` (only the zero default is ever built here). -/
inductive Component
  | entityId (id : Int)
  | position (pos : Position)
  | previousPosition (pos : Position)
  | velocity (x y z : Rat)
deriving DecidableEq

/-- `Velocity::default()`: the zero vector. -/
def Velocity.default : Component := Component.velocity 0 0 0

/-- `lazy.rs` `EntityBuilder` (outside the excerpt): modelled from the spec
as the accumulated component list plus whether the `with_exec` closure
triggering `EntityCreateEvent` was attached. -/
structure EntityBuilder where
  components : List Component
  triggers_entity_create : Bool
deriving DecidableEq

/-- `state.create_entity()`: an empty builder. -/
def create_entity : EntityBuilder := ⟨[], false⟩

/-- `EntityBuilder::with_component`. -/
def EntityBuilder.with_component (b : EntityBuilder) (c : Component) :
    EntityBuilder :=
  { b with components := b.components ++ [c] }

/-- The `with_exec` call of `base`, which schedules the
`EntityCreateEvent` trigger. -/
def EntityBuilder.with_exec_trigger_create (b : EntityBuilder) : EntityBuilder :=
  { b with triggers_entity_create := true }

/-- `entity/mod.rs` `base`: `ENTITY_ID_COUNTER.fetch_add(1, Relaxed)`
returns the pre-increment value, used as the new `EntityId`; the builder
receives the id, the position, the previous position (initialized to the
same position) and the default velocity.  Returns the builder and the new
counter value. -/
def base (counter : Int) (position : Position) : EntityBuilder × Int :=
  let id := counter
  ((((create_entity.with_component (Component.entityId id)).with_component
        (Component.position position)).with_component
        (Component.previousPosition position)).with_component
        Velocity.default |>.with_exec_trigger_create,
   counter + 1)

/-- First `Position` component of a builder, if any. -/
def EntityBuilder.position_component (b : EntityBuilder) : Option Position :=
  b.components.findSome? fun c =>
    match c with
    | Component.position p => some p
    | _ => none

/-- First `PreviousPosition` component of a builder, if any. -/
def EntityBuilder.previous_position_component (b : EntityBuilder) :
    Option Position :=
  b.components.findSome? fun c =>
    match c with
    | Component.previousPosition p => some p
    | _ => none

/-! # Theorems -/

/-- Translation from offsets to chunks around a fixed center is injective. -/
theorem add_offset_injective (position : ChunkPosition) :
    Function.Injective (fun d : Int × Int => position + ChunkPosition.mk d.1 d.2) := by
  intro a b h
  have hx : position.x + a.1 = position.x + b.1 := congrArg ChunkPosition.x h
  have hz : position.z + a.2 = position.z + b.2 := congrArg ChunkPosition.z h
  have h1 : a.1 = b.1 := by omega
  have h2 : a.2 = b.2 := by omega
  exact Prod.ext h1 h2

/-- Cardinality of the view-distance grid: (2d+1)². -/
theorem card_chunks_within_view_distance (config : Config) (position : ChunkPosition) :
    (chunks_within_view_distance config position).card =
      (2 * config.view_distance + 1) ^ 2 := by
  unfold chunks_within_view_distance
  rw [Finset.card_image_of_injective _ (add_offset_injective position),
    Finset.card_product, Int.card_Icc]
  have : ((config.view_distance : Int) + 1 - -(config.view_distance : Int)).toNat =
      2 * config.view_distance + 1 := by omega
  rw [this]
  ring

/-- Membership characterization of the view-distance grid. -/
theorem mem_chunks_within_view_distance (config : Config) (position c : ChunkPosition) :
    c ∈ chunks_within_view_distance config position ↔
      |c.x - position.x| ≤ config.view_distance ∧
      |c.z - position.z| ≤ config.view_distance := by
  unfold chunks_within_view_distance
  simp only [Finset.mem_image, Finset.mem_product, Finset.mem_Icc]
  constructor
  · rintro ⟨⟨dx, dz⟩, ⟨⟨h1, h2⟩, ⟨h3, h4⟩⟩, rfl⟩
    constructor
    · show |position.x + dx - position.x| ≤ _
      rw [abs_le]; omega
    · show |position.z + dz - position.z| ≤ _
      rw [abs_le]; omega
  · rintro ⟨h1, h2⟩
    refine ⟨⟨c.x - position.x, c.z - position.z⟩, ⟨⟨?_, ?_⟩, ⟨?_, ?_⟩⟩, ?_⟩
    · have := abs_le.mp h1; omega
    · have := abs_le.mp h1; omega
    · have := abs_le.mp h2; omega
    · have := abs_le.mp h2; omega
    · show ChunkPosition.mk (position.x + (c.x - position.x)) (position.z + (c.z - position.z)) = c
      cases c
      simp only [ChunkPosition.mk.injEq]
      omega

/-- C5: For every view distance d ≥ 0 and every center chunk position,
`chunks_within_view_distance` returns exactly (2d+1)² distinct chunk
positions, each within Chebyshev distance d of the center; for d = 0 it
returns exactly the center chunk. -/
theorem chunks_within_view_distance_spec (config : Config) (position : ChunkPosition) :
    (chunks_within_view_distance config position).card =
        (2 * config.view_distance + 1) ^ 2 ∧
    (∀ c ∈ chunks_within_view_distance config position,
        max |c.x - position.x| |c.z - position.z| ≤ config.view_distance) ∧
    (config.view_distance = 0 →
        chunks_within_view_distance config position = {position}) := by
  refine ⟨card_chunks_within_view_distance config position, ?_, ?_⟩
  · intro c hc
    obtain ⟨h1, h2⟩ := (mem_chunks_within_view_distance config position c).mp hc
    exact max_le h1 h2
  · intro hd
    apply Finset.ext
    intro c
    rw [mem_chunks_within_view_distance, hd, Finset.mem_singleton]
    constructor
    · rintro ⟨h1, h2⟩
      have hx : c.x = position.x := by
        have := abs_le.mp h1; omega
      have hz : c.z = position.z := by
        have := abs_le.mp h2; omega
      cases c; cases position
      simp_all
    · rintro rfl
      simp

/-- Witness for C5 at view distance 0 and center (3,4): the grid has
(2·0+1)² = 1 element and is exactly the center chunk. -/
theorem chunks_within_view_distance_spec_witness :
    (chunks_within_view_distance ⟨0⟩ ⟨3, 4⟩).card = (2 * 0 + 1) ^ 2 ∧
    chunks_within_view_distance ⟨0⟩ ⟨3, 4⟩ = {⟨3, 4⟩} :=
  ⟨(chunks_within_view_distance_spec ⟨0⟩ ⟨3, 4⟩).1,
   (chunks_within_view_distance_spec ⟨0⟩ ⟨3, 4⟩).2.2 rfl⟩

/-- C4: For every entity move event concerning a player, if the new
position's chunk coordinate equals the previous one no view-update event is
emitted; if it changed, exactly one is emitted with the correct new chunk,
old chunk, and visible sets computed from the new and previous chunk. -/
theorem view_update_spec (state : Config) (world : MoveWorld)
    (event : EntityMoveEvent) (hplayer : world.is_player event.entity = true) :
    ((world.position event.entity).chunk_pos =
        (world.previous_position event.entity).chunk_pos →
      view_update state world event = []) ∧
    ((world.position event.entity).chunk_pos ≠
        (world.previous_position event.entity).chunk_pos →
      view_update state world event =
        [{ player := event.entity
           new_chunk := (world.position event.entity).chunk_pos
           old_chunk := some (world.previous_position event.entity).chunk_pos
           visible_old := chunks_within_view_distance state
             (world.previous_position event.entity).chunk_pos
           visible_new := chunks_within_view_distance state
             (world.position event.entity).chunk_pos }]) := by
  constructor
  · intro heq
    simp [view_update, hplayer, heq]
  · intro hne
    simp [view_update, hplayer, hne]

/-- Witness for C4 at a concrete input: an in-chunk move (x 15.5 → 15.9)
emits nothing; a boundary crossing (x 15.9 → 16.1) emits exactly one event
with old chunk (0,0) and new chunk (1,0). -/
theorem view_update_spec_witness :
    ((fun _ => true) : Entity → Bool) 0 = true ∧
    (view_update ⟨2⟩
        ⟨fun _ => true, fun _ => ⟨159/10, 0⟩, fun _ => ⟨155/10, 0⟩⟩ ⟨0⟩ = []) ∧
    (view_update ⟨2⟩
        ⟨fun _ => true, fun _ => ⟨161/10, 0⟩, fun _ => ⟨159/10, 0⟩⟩ ⟨0⟩ =
      [{ player := 0
         new_chunk := ⟨1, 0⟩
         old_chunk := some ⟨0, 0⟩
         visible_old := chunks_within_view_distance ⟨2⟩ ⟨0, 0⟩
         visible_new := chunks_within_view_distance ⟨2⟩ ⟨1, 0⟩ }]) := by
  have h1 : (Position.chunk_pos ⟨161/10, 0⟩) = ⟨1, 0⟩ := by
    simp only [Position.chunk_pos, ChunkPosition.mk.injEq]
    norm_num
  have h2 : (Position.chunk_pos ⟨159/10, 0⟩) = ⟨0, 0⟩ := by
    simp only [Position.chunk_pos, ChunkPosition.mk.injEq]
    norm_num
  have h3 : (Position.chunk_pos ⟨155/10, 0⟩) = ⟨0, 0⟩ := by
    simp only [Position.chunk_pos, ChunkPosition.mk.injEq]
    norm_num
  refine ⟨rfl, ?_, ?_⟩
  · have h := (view_update_spec ⟨2⟩
      ⟨fun _ => true, fun _ => ⟨159/10, 0⟩, fun _ => ⟨155/10, 0⟩⟩ ⟨0⟩ rfl).1
    exact h (by rw [h2, h3])
  · have h := (view_update_spec ⟨2⟩
      ⟨fun _ => true, fun _ => ⟨161/10, 0⟩, fun _ => ⟨159/10, 0⟩⟩ ⟨0⟩ rfl).2
    have hne : (Position.chunk_pos ⟨161/10, 0⟩) ≠ (Position.chunk_pos ⟨159/10, 0⟩) := by
      rw [h1, h2]
      simp [ChunkPosition.mk.injEq]
    rw [h hne, h1, h2]

/-- C6: For every player-join event, exactly one view-update event is
emitted unconditionally, with no old chunk, empty `visible_old`, and
`visible_new` the full (2d+1)² grid computed from the join position. -/
theorem view_update_on_join_spec (state : Config) (position : Position)
    (event : PlayerJoinEvent) :
    ∃ e, view_update_on_join state position event = [e] ∧
      e.player = event.player ∧
      e.old_chunk = none ∧
      e.visible_old = ∅ ∧
      e.new_chunk = position.chunk_pos ∧
      e.visible_new = chunks_within_view_distance state position.chunk_pos ∧
      e.visible_new.card = (2 * state.view_distance + 1) ^ 2 := by
  refine ⟨_, rfl, rfl, rfl, rfl, rfl, rfl, ?_⟩
  exact card_chunks_within_view_distance state position.chunk_pos

/-- Inserting by a key order that always compares `true` prepends. -/
theorem ordered_insert_unit_key (key : ChunkPosition → Unit) (a : ChunkPosition)
    (l : List ChunkPosition) :
    ordered_insert_by_key unit_le key a l = a :: l := by
  cases l with
  | nil => rfl
  | cons b l => simp [ordered_insert_by_key, unit_le]

/-- With the unit-valued key every comparison succeeds and the sort is the
identity. -/
theorem view_handle_chunks_order_eq_self (l : List ChunkPosition)
    (nc : ChunkPosition) : view_handle_chunks_order l nc = l := by
  induction l with
  | nil => rfl
  | cons a l ih =>
    unfold view_handle_chunks_order sort_unstable_by_key at ih ⊢
    rw [List.foldr_cons, ih, ordered_insert_unit_key]

/-- C1 (code bug): `view_handle_chunks` computes its sort key as
`{ chunk.manhattan_distance(event.new_chunk); }` — the trailing semicolon
discards the distance, the key is the unit value, and the sort is a no-op,
so newly visible chunks are delivered in hash-set iteration order, not
ascending by Manhattan distance.  On the spec's example: for the
enumeration [(2,0), (0,1), (0,0)] of `to_send` relative to new chunk (0,0),
the delivered order stays [(2,0), (0,1), (0,0)], which is not ascending by
Manhattan distance (the claimed order is [(0,0), (0,1), (2,0)]). -/
theorem view_handle_chunks_sort_is_noop :
    (∀ (l : List ChunkPosition) (nc : ChunkPosition),
        view_handle_chunks_order l nc = l) ∧
    view_handle_chunks_order [⟨2, 0⟩, ⟨0, 1⟩, ⟨0, 0⟩] ⟨0, 0⟩ =
        [⟨2, 0⟩, ⟨0, 1⟩, ⟨0, 0⟩] ∧
    ¬ List.Pairwise
        (fun a b => a.manhattan_distance ⟨0, 0⟩ ≤ b.manhattan_distance ⟨0, 0⟩)
        (view_handle_chunks_order [⟨2, 0⟩, ⟨0, 1⟩, ⟨0, 0⟩] ⟨0, 0⟩) := by
  refine ⟨view_handle_chunks_order_eq_self, view_handle_chunks_order_eq_self _ _, ?_⟩
  rw [view_handle_chunks_order_eq_self]
  intro h
  have h2 := (List.pairwise_cons.mp h).1 ⟨0, 0⟩ (by simp)
  revert h2
  decide

/-- C9: sending over a session channel whose conduit is already closed is
silently dropped: `send_boxed` and `send` are total, return normally with
the channel unchanged, and surface no error; on an open channel the packet
is enqueued. -/
theorem network_send_closed_spec (ch : Channel) (packet : Packet)
    (hclosed : ch.closed = true) :
    Network.send_boxed ch packet = ch ∧ Network.send ch packet = ch := by
  unfold Network.send Network.send_boxed Channel.unbounded_send
  simp [hclosed]

/-- Witness for C9: a concrete packet sent over a concrete closed channel
is dropped without error. -/
theorem network_send_closed_spec_witness :
    (Channel.mk true []).closed = true ∧
    Network.send_boxed ⟨true, []⟩ ⟨0, 0⟩ = ⟨true, []⟩ ∧
    Network.send ⟨true, []⟩ ⟨0, 0⟩ = ⟨true, []⟩ :=
  ⟨rfl, (network_send_closed_spec ⟨true, []⟩ ⟨0, 0⟩ rfl).1,
    (network_send_closed_spec ⟨true, []⟩ ⟨0, 0⟩ rfl).2⟩

/-- C10: every entity created through `base` starts with its
`PreviousPosition` component equal to its initial `Position` component (the
builder installs `PreviousPosition(position)` alongside `position`), so the
first move event for the entity compares against its creation position. -/
theorem base_previous_position_eq_position (counter : Int) (position : Position) :
    (base counter position).1.previous_position_component = some position ∧
    (base counter position).1.position_component = some position ∧
    (base counter position).1.previous_position_component =
      (base counter position).1.position_component :=
  ⟨rfl, rfl, rfl⟩

/-- Bucket contents after a sequence of pushes: the original contents
followed by the pushed entries whose packet type matches the bucket, in push
order. -/
theorem push_all_queue_eq (pushes : List (Entity × Packet)) (q : PacketQueue)
    (ordinal : Nat) :
    (q.push_all pushes).queue ordinal =
      q.queue ordinal ++ pushes.filter (fun ep => decide (ep.2.ty = ordinal)) := by
  induction pushes generalizing q with
  | nil => simp [PacketQueue.push_all]
  | cons ep rest ih =>
    simp only [PacketQueue.push_all, List.foldl_cons] at ih ⊢
    rw [ih, List.filter_cons]
    by_cases hty : ep.2.ty = ordinal
    · simp [PacketQueue.push, hty]
    · have : ¬ ordinal = ep.2.ty := fun h => hty h.symm
      simp [PacketQueue.push, hty, this]

/-- C2: for every sequence of pushes, draining a packet type returns exactly
the entries of that type in push (insertion) order, empties that type's
bucket (an immediately following drain of the same type returns nothing),
and leaves every other type's bucket unchanged. -/
theorem packet_queue_received_spec (pushes : List (Entity × Packet)) (ty : Nat) :
    ((PacketQueue.new.push_all pushes).received ty).1 =
        pushes.filter (fun ep => decide (ep.2.ty = ty)) ∧
    ((((PacketQueue.new.push_all pushes).received ty).2).received ty).1 = [] ∧
    (∀ ordinal, ordinal ≠ ty →
      (((PacketQueue.new.push_all pushes).received ty).2).queue ordinal =
        (PacketQueue.new.push_all pushes).queue ordinal) := by
  refine ⟨?_, ?_, ?_⟩
  · show (PacketQueue.new.push_all pushes).queue ty = _
    rw [push_all_queue_eq]
    rfl
  · show (if ty = ty then [] else (PacketQueue.new.push_all pushes).queue ty) = []
    simp
  · intro ordinal hne
    show (if ordinal = ty then [] else (PacketQueue.new.push_all pushes).queue ordinal) = _
    simp [hne]

/-- Witness for C2, the spec's FIFO-per-type scenario: pushing packet types
A (ordinal 0), B (ordinal 1), A in that order, draining A yields the two
A-packets in push order; the second drain of A yields nothing; bucket B is
untouched by the drain of A. -/
theorem packet_queue_received_spec_witness :
    ((PacketQueue.new.push_all
        [(0, ⟨0, 0⟩), (1, ⟨1, 0⟩), (1, ⟨0, 1⟩)]).received 0).1 =
      [(0, ⟨0, 0⟩), (1, ⟨0, 1⟩)] ∧
    ((((PacketQueue.new.push_all
        [(0, ⟨0, 0⟩), (1, ⟨1, 0⟩), (1, ⟨0, 1⟩)]).received 0).2).received 0).1 = [] ∧
    (((PacketQueue.new.push_all
        [(0, ⟨0, 0⟩), (1, ⟨1, 0⟩), (1, ⟨0, 1⟩)]).received 0).2).queue 1 =
      (PacketQueue.new.push_all
        [(0, ⟨0, 0⟩), (1, ⟨1, 0⟩), (1, ⟨0, 1⟩)]).queue 1 := by
  have h := packet_queue_received_spec [(0, ⟨0, 0⟩), (1, ⟨1, 0⟩), (1, ⟨0, 1⟩)] 0
  exact ⟨h.1.trans rfl, h.2.1, h.2.2 1 (by decide)⟩

/-- C8: on a disconnect notification, the driver snapshots the session's
position, entity id and UUID, emits an `EntityDeleteEvent` carrying that
snapshot, and deletes the entity; handling a disconnect for an
already-deleted session panics (fails fast) rather than proceeding. -/
theorem handle_notify_disconnect_spec (w : NetWorld) (entity : Entity)
    (data : PlayerData) (h : w.components entity = some data) :
    handle_notify_disconnect w entity =
      Except.ok (⟨fun e => if e = entity then none else w.components e⟩,
        ⟨entity, some data.position, data.id, data.uuid⟩) ∧
    (∀ w2 ev, handle_notify_disconnect w entity = Except.ok (w2, ev) →
      w2.components entity = none ∧
      handle_notify_disconnect w2 entity = Except.error Panic.unwrapNone) := by
  have hmain : handle_notify_disconnect w entity =
      Except.ok (⟨fun e => if e = entity then none else w.components e⟩,
        ⟨entity, some data.position, data.id, data.uuid⟩) := by
    unfold handle_notify_disconnect NetWorld.delete
    rw [h]
    simp
  refine ⟨hmain, ?_⟩
  intro w2 ev heq
  rw [hmain] at heq
  obtain ⟨hw2, _⟩ := Prod.mk.injEq .. ▸ Except.ok.injEq .. ▸ heq
  have hw2c : w2.components entity = none := by
    rw [← hw2]
    simp
  refine ⟨hw2c, ?_⟩
  unfold handle_notify_disconnect
  rw [hw2c]

/-- Witness for C8: a concrete world with one live session; its disconnect
snapshots position (0,0), id 7, uuid 42, deletes the entity, and a second
disconnect of the same session fails with a panic. -/
theorem handle_notify_disconnect_spec_witness :
    (NetWorld.mk fun e => if e = 0 then some ⟨⟨0, 0⟩, 7, 42⟩ else none).components 0 =
        some ⟨⟨0, 0⟩, 7, 42⟩ ∧
    handle_notify_disconnect
        ⟨fun e => if e = 0 then some ⟨⟨0, 0⟩, 7, 42⟩ else none⟩ 0 =
      Except.ok (⟨fun e => if e = 0 then none
            else (NetWorld.mk fun e => if e = 0 then some ⟨⟨0, 0⟩, 7, 42⟩ else none).components e⟩,
        ⟨0, some ⟨0, 0⟩, 7, 42⟩) ∧
    (∀ w2 ev, handle_notify_disconnect
        ⟨fun e => if e = 0 then some ⟨⟨0, 0⟩, 7, 42⟩ else none⟩ 0 = Except.ok (w2, ev) →
      w2.components 0 = none ∧
      handle_notify_disconnect w2 0 = Except.error Panic.unwrapNone) := by
  have h := handle_notify_disconnect_spec
    ⟨fun e => if e = 0 then some ⟨⟨0, 0⟩, 7, 42⟩ else none⟩ 0 ⟨⟨0, 0⟩, 7, 42⟩ rfl
  exact ⟨rfl, h.1, h.2⟩

/-- A list of spawn packets contains no destroy packet. -/
theorem filter_destroy_map_spawn (targets : List Entity) :
    (targets.map SentPacket.spawn).filter SentPacket.is_destroy_entities = [] := by
  induction targets with
  | nil => rfl
  | cons a l ih => simp [SentPacket.is_destroy_entities, ih]

/-- `spawn_targets` never selects the session's own entity. -/
theorem spawn_targets_ne_player (w : EntityWorld) (player : Entity)
    (chunks : List ChunkPosition) (e : Entity)
    (h : e ∈ spawn_targets w player chunks) : e ≠ player := by
  unfold spawn_targets at h
  obtain ⟨chunk, _, hmem⟩ := List.mem_flatMap.mp h
  have hp := List.of_mem_filter hmem
  simp only [Bool.and_eq_true, decide_eq_true_eq] at hp
  exact hp.1

/-- The packets produced for one view-update event when entities vanish. -/
theorem view_handle_entities_packets_eq (w : EntityWorld) (event : ViewUpdateEvent)
    (hN : view_to_delete w event ≠ []) :
    (view_handle_entities w event).packets =
      (spawn_targets w event.player
          (enumerate (event.visible_new \ event.visible_old))).map SentPacket.spawn ++
        [SentPacket.destroyEntities (view_to_delete w event)] := by
  obtain ⟨hd, tl, hps⟩ := List.exists_cons_of_ne_nil hN
  have hempty : (view_to_delete w event).isEmpty = false := by
    rw [hps]; exact List.isEmpty_cons
  simp only [view_handle_entities, hempty, Bool.false_eq_true, if_false]

/-- C7: for every view-update event with N > 0 entities located in the
newly invisible chunks, exactly one batched destroy-entities packet is sent,
containing all N numeric entity ids (never one packet per entity), and the
session never receives a spawn packet for its own entity. -/
theorem view_handle_entities_spec (w : EntityWorld) (event : ViewUpdateEvent)
    (hN : view_to_delete w event ≠ []) :
    ((view_handle_entities w event).packets.filter SentPacket.is_destroy_entities) =
        [SentPacket.destroyEntities (view_to_delete w event)] ∧
    (∀ e, SentPacket.spawn e ∈ (view_handle_entities w event).packets →
        e ≠ event.player) := by
  have hpack := view_handle_entities_packets_eq w event hN
  constructor
  · rw [hpack, List.filter_append, filter_destroy_map_spawn]
    simp [SentPacket.is_destroy_entities]
  · intro e hmem
    rw [hpack] at hmem
    rcases List.mem_append.mp hmem with hmem | hmem
    · obtain ⟨t, ht, heq⟩ := List.mem_map.mp hmem
      have hte : t = e := by
        simpa using heq
      subst hte
      exact spawn_targets_ne_player w event.player _ t ht
    · simp at hmem

/-- Witness for C7: a session (entity 3) whose view update makes chunk (0,0)
invisible; entities 5 and 6 live there, so the single destroy packet carries
exactly ids [105, 106], and no spawn packet targets the session itself. -/
theorem view_handle_entities_spec_witness :
    view_to_delete
        ⟨fun c => if c = ⟨0, 0⟩ then [5, 6] else [], fun e => (e : Int) + 100, fun _ => true⟩
        ⟨3, ⟨9, 9⟩, none, {⟨0, 0⟩}, ∅⟩ = [105, 106] ∧
    ((view_handle_entities
        ⟨fun c => if c = ⟨0, 0⟩ then [5, 6] else [], fun e => (e : Int) + 100, fun _ => true⟩
        ⟨3, ⟨9, 9⟩, none, {⟨0, 0⟩}, ∅⟩).packets.filter SentPacket.is_destroy_entities) =
      [SentPacket.destroyEntities [105, 106]] ∧
    (∀ e, SentPacket.spawn e ∈ (view_handle_entities
        ⟨fun c => if c = ⟨0, 0⟩ then [5, 6] else [], fun e => (e : Int) + 100, fun _ => true⟩
        ⟨3, ⟨9, 9⟩, none, {⟨0, 0⟩}, ∅⟩).packets → e ≠ 3) := by
  have hsort : enumerate (({⟨0, 0⟩} : Finset ChunkPosition) \ ∅) = [⟨0, 0⟩] := by
    rw [Finset.sdiff_empty]
    exact Finset.sort_singleton ChunkPosition.lex_le ⟨0, 0⟩
  have hds : view_to_delete
      ⟨fun c => if c = ⟨0, 0⟩ then [5, 6] else [], fun e => (e : Int) + 100, fun _ => true⟩
      ⟨3, ⟨9, 9⟩, none, {⟨0, 0⟩}, ∅⟩ = [105, 106] := by
    unfold view_to_delete
    rw [hsort]
    norm_num
  have h := view_handle_entities_spec
    ⟨fun c => if c = ⟨0, 0⟩ then [5, 6] else [], fun e => (e : Int) + 100, fun _ => true⟩
    ⟨3, ⟨9, 9⟩, none, {⟨0, 0⟩}, ∅⟩ (by rw [hds]; decide)
  exact ⟨hds, hds ▸ h.1, h.2⟩

/-- A session registering for an unresident chunk that already has a
pending entry is appended to the entry; no new load request, packet or
send event is produced. -/
theorem register_pending_already (resident : ChunkPosition → Bool)
    (c : ChunkPosition) (hres : resident c = false) (ps : List Entity)
    (st : ChunkSendState) (l : List Entity)
    (hst : st.chunks_to_send c = some l) :
    (register_pending resident c ps st).chunks_to_send c = some (l ++ ps) ∧
    (register_pending resident c ps st).load_requests = st.load_requests ∧
    (register_pending resident c ps st).packets = st.packets ∧
    (register_pending resident c ps st).send_events = st.send_events := by
  induction ps generalizing st l with
  | nil =>
    refine ⟨?_, rfl, rfl, rfl⟩
    rw [List.append_nil]
    exact hst
  | cons p rest ih =>
    have hstep : send_chunk_to_player resident p c st =
        { st with
          holds := st.holds ++ [(p, c)]
          chunks_to_send := fun x =>
            if x = c then some (l ++ [p]) else st.chunks_to_send x } := by
      unfold send_chunk_to_player
      rw [hres]
      simp [hst]
    have hrw : register_pending resident c (p :: rest) st =
        register_pending resident c rest (send_chunk_to_player resident p c st) := rfl
    rw [hrw, hstep]
    obtain ⟨h1, h2, h3, h4⟩ := ih
      { st with
        holds := st.holds ++ [(p, c)]
        chunks_to_send := fun x =>
          if x = c then some (l ++ [p]) else st.chunks_to_send x }
      (l ++ [p]) (by simp)
    refine ⟨?_, h2, h3, h4⟩
    rw [h1]
    simp

/-- The first session registering for an unresident chunk with no pending
entry creates the entry and issues the (single) load request. -/
theorem register_pending_first (resident : ChunkPosition → Bool)
    (c : ChunkPosition) (hres : resident c = false) (p : Entity)
    (st : ChunkSendState) (hst : st.chunks_to_send c = none) :
    send_chunk_to_player resident p c st =
      { st with
        holds := st.holds ++ [(p, c)]
        chunks_to_send := fun x => if x = c then some [p] else st.chunks_to_send x
        load_requests := st.load_requests ++ [c] } := by
  unfold send_chunk_to_player
  rw [hres]
  simp [hst]

/-- The delivery fold of `chunk_send` appends one chunk-data packet and one
send event per pending session, in registration order. -/
theorem chunk_send_fold_eq (pos : ChunkPosition) (players : List Entity)
    (st : ChunkSendState) :
    players.foldl (fun st player =>
      { st with
        packets := st.packets ++ [(player, SentPacket.chunkData pos)]
        send_events := st.send_events ++ [⟨pos, player⟩] }) st =
      { st with
        packets := st.packets ++ players.map fun q => (q, SentPacket.chunkData pos)
        send_events := st.send_events ++ players.map fun q =>
          (⟨pos, q⟩ : ChunkSendEvent) } := by
  induction players generalizing st with
  | nil => simp
  | cons q qs ih =>
    simp only [List.foldl_cons]
    rw [ih]
    simp [List.append_assoc]

/-- `chunk_send` for a loaded chunk with pending sessions: every pending
session receives the chunk data and a send event, and the pending entry is
removed. -/
theorem chunk_send_pending (resident : ChunkPosition → Bool)
    (pos : ChunkPosition) (hres : resident pos = true) (st : ChunkSendState)
    (players : List Entity) (hst : st.chunks_to_send pos = some players) :
    chunk_send resident pos st = Except.ok
      { st with
        chunks_to_send := fun x => if x = pos then none else st.chunks_to_send x
        packets := st.packets ++ players.map fun q => (q, SentPacket.chunkData pos)
        send_events := st.send_events ++ players.map fun q =>
          (⟨pos, q⟩ : ChunkSendEvent) } := by
  unfold chunk_send
  simp only [hst, hres, if_true]
  rw [chunk_send_fold_eq]

/-- C3: when the sessions `p :: rest` come to await the same unresident
chunk `c` in the same pending window, each is registered in the pending
mapping, exactly one load request is issued (by the first registration
only); when the chunk-load-completed event arrives with the chunk now
resident, every registered session is sent the chunk once, a chunk-send
event is emitted for each, and the pending entry for `c` is removed. -/
theorem pending_chunk_dedup_spec (resident_before resident_after : ChunkPosition → Bool)
    (c : ChunkPosition) (hb : resident_before c = false)
    (ha : resident_after c = true) (p : Entity) (rest : List Entity)
    (st : ChunkSendState) (hst : st.chunks_to_send c = none) :
    (register_pending resident_before c (p :: rest) st).chunks_to_send c =
        some (p :: rest) ∧
    (register_pending resident_before c (p :: rest) st).load_requests =
        st.load_requests ++ [c] ∧
    (register_pending resident_before c (p :: rest) st).packets = st.packets ∧
    ∃ st3, chunk_send resident_after c
          (register_pending resident_before c (p :: rest) st) = Except.ok st3 ∧
      st3.chunks_to_send c = none ∧
      st3.packets = (register_pending resident_before c (p :: rest) st).packets ++
          (p :: rest).map (fun q => (q, SentPacket.chunkData c)) ∧
      st3.send_events =
          (register_pending resident_before c (p :: rest) st).send_events ++
            (p :: rest).map (fun q => (⟨c, q⟩ : ChunkSendEvent)) := by
  have hrw : register_pending resident_before c (p :: rest) st =
      register_pending resident_before c rest
        (send_chunk_to_player resident_before p c st) := rfl
  have hfirst := register_pending_first resident_before c hb p st hst
  obtain ⟨h1, h2, h3, h4⟩ := register_pending_already resident_before c hb rest
    ({ st with
        holds := st.holds ++ [(p, c)]
        chunks_to_send := fun x => if x = c then some [p] else st.chunks_to_send x
        load_requests := st.load_requests ++ [c] }) [p] (by simp)
  have hsome : (register_pending resident_before c (p :: rest) st).chunks_to_send c =
      some (p :: rest) := by
    rw [hrw, hfirst, h1]
    simp
  refine ⟨hsome, ?_, ?_, ?_⟩
  · rw [hrw, hfirst, h2]
  · rw [hrw, hfirst, h3]
  · refine ⟨_, chunk_send_pending resident_after c ha _ _ hsome, ?_, rfl, rfl⟩
    simp

/-- Witness for C3: sessions 1 and 2 awaiting the unresident chunk (0,0)
from the empty state; one load request is issued, both are pending, and on
load completion both receive the chunk, two send events fire, and the
pending entry is gone. -/
theorem pending_chunk_dedup_spec_witness :
    (register_pending (fun _ => false) ⟨0, 0⟩ [1, 2]
        ⟨fun _ => none, [], [], [], []⟩).chunks_to_send ⟨0, 0⟩ = some [1, 2] ∧
    (register_pending (fun _ => false) ⟨0, 0⟩ [1, 2]
        ⟨fun _ => none, [], [], [], []⟩).load_requests = [] ++ [⟨0, 0⟩] ∧
    (register_pending (fun _ => false) ⟨0, 0⟩ [1, 2]
        ⟨fun _ => none, [], [], [], []⟩).packets = [] ∧
    (∃ st3, chunk_send (fun _ => true) ⟨0, 0⟩
          (register_pending (fun _ => false) ⟨0, 0⟩ [1, 2]
            ⟨fun _ => none, [], [], [], []⟩) = Except.ok st3 ∧
      st3.chunks_to_send ⟨0, 0⟩ = none ∧
      st3.packets = (register_pending (fun _ => false) ⟨0, 0⟩ [1, 2]
          ⟨fun _ => none, [], [], [], []⟩).packets ++
        [1, 2].map (fun q => (q, SentPacket.chunkData ⟨0, 0⟩)) ∧
      st3.send_events = (register_pending (fun _ => false) ⟨0, 0⟩ [1, 2]
          ⟨fun _ => none, [], [], [], []⟩).send_events ++
        [1, 2].map (fun q => (⟨⟨0, 0⟩, q⟩ : ChunkSendEvent))) := by
  have h := pending_chunk_dedup_spec (fun _ => false) (fun _ => true) ⟨0, 0⟩
    rfl rfl 1 [2] ⟨fun _ => none, [], [], [], []⟩ rfl
  exact ⟨h.1, h.2.1, h.2.2.1, h.2.2.2⟩

end Feather
